import Mathlib

/-!
Shallow embedding of the draft-js document-model core (plain-JS port, no
Immutable.js) and verification of its specification claims.

Modelling conventions:
- JS strings of text are modelled as `List Char`; JS `String.slice(a, b)`
  becomes `take`/`drop` with the same clamping behaviour.
- A JS `Set` of style tags is insertion ordered; it is modelled as a
  `List String` without duplicates, preserving insertion order.
- A JS `Map` is modelled as an association list `List (String × β)` in
  insertion order; `Map.prototype.set` replaces the value at an existing key
  in place (keeping its position) and appends otherwise.
- JS exceptions (TypeError from calling a method of `undefined`, from
  destructuring a non-iterable, or from handing a non-entry to the `Map`
  constructor) are modelled with `Except String`; the message text is not
  part of any claim.
- Derived caches of `EditorState` (`treeMap`, `directionMap`) and the
  entity map are outside the claims and are omitted from the state record;
  `EditorState.set` with no decorator change is a plain field merge
  (`Object.assign`), which record updates model directly.
-/

/-- JS `Array.prototype.indexOf`-style first index of `k`, `none` if absent. -/
def firstIdx (l : List String) (k : String) : Option Nat :=
  match l with
  | [] => none
  | x :: xs => if x = k then some 0 else (firstIdx xs k).map (· + 1)

/-- JS `Array.prototype.indexOf`: first index, `-1` when absent. -/
def jsIndexOf (l : List String) (k : String) : Int :=
  match firstIdx l k with
  | some n => (n : Int)
  | none => -1

/-- JS `Array.prototype.lastIndexOf`: last index, `-1` when absent. -/
def jsLastIndexOf (l : List String) (k : String) : Int :=
  match firstIdx l.reverse k with
  | some n => ((l.length - 1 - n : Nat) : Int)
  | none => -1

/-- JS `Map.prototype.set`: replace in place at an existing key, else append. -/
def jsMapSet {β : Type} (m : List (String × β)) (k : String) (v : β) :
    List (String × β) :=
  match m with
  | [] => [(k, v)]
  | (k', v') :: rest =>
    if k' = k then (k, v) :: rest else (k', v') :: jsMapSet rest k v

/-- JS `new Map(entries)`: iterate the entries, `set` each one in turn. -/
def jsMapOfList {β : Type} (l : List (String × β)) : List (String × β) :=
  l.foldl (fun m kv => jsMapSet m kv.1 kv.2) []

/-- JS `Map.prototype.get` on an association list (first binding wins). -/
def jsMapGet {β : Type} : List (String × β) → String → Option β
  | [], _ => none
  | (k', v) :: rest, k => if k' = k then some v else jsMapGet rest k

/-- JS `Set.prototype.add`: append the tag if absent (insertion order kept). -/
def jsSetAdd (l : List String) (t : String) : List String :=
  if t ∈ l then l else l ++ [t]

/-- JS `Set.prototype.delete`: remove the tag. -/
def jsSetDelete (l : List String) (t : String) : List String :=
  l.filter (fun s => s ≠ t)

/-- CharacterMetadata as a value: a style set and an optional entity key
(`src/model/immutable/CharacterMetadata.js`). Object identity and the intern
pool are modelled separately (`CMObj`, `CMState`) for the pooling claim. -/
structure CharacterMetadata where
  style : List String
  entity : Option String
deriving DecidableEq

/-- The process-wide empty instance `CharacterMetadata.EMPTY`. -/
def CharacterMetadata.EMPTY : CharacterMetadata := ⟨[], none⟩

/-- Value content of `CharacterMetadata.applyStyle`: copy the style set and
add the tag (`new Set(record.getStyle()); newStyle.add(style)`). -/
def CharacterMetadata.applyStyle (c : CharacterMetadata) (tag : String) :
    CharacterMetadata :=
  { c with style := jsSetAdd c.style tag }

/-- Value content of `CharacterMetadata.removeStyle`. -/
def CharacterMetadata.removeStyle (c : CharacterMetadata) (tag : String) :
    CharacterMetadata :=
  { c with style := jsSetDelete c.style tag }

/-- ContentBlock (flat variant, `src/model/immutable/ContentBlock.js`):
key, type, text, per-character metadata, depth. The opaque `data` map is
outside every claim and omitted. -/
structure ContentBlock where
  key : String
  type : String
  text : List Char
  characterList : List CharacterMetadata
  depth : Nat
deriving DecidableEq

/-- JS `block.getLength()` is `this.getText().length`. -/
def ContentBlock.getLength (b : ContentBlock) : Nat := b.text.length

/-- SelectionState (`SelectionState` class in
`src/model/immutable/inheritAndUpdate.js` bundle). -/
structure SelectionState where
  anchorKey : String
  anchorOffset : Nat
  focusKey : String
  focusOffset : Nat
  isBackward : Bool
  hasFocus : Bool
deriving DecidableEq

def SelectionState.isCollapsed (s : SelectionState) : Bool :=
  s.anchorKey = s.focusKey && s.anchorOffset = s.focusOffset

def SelectionState.getStartKey (s : SelectionState) : String :=
  if s.isBackward then s.focusKey else s.anchorKey

def SelectionState.getStartOffset (s : SelectionState) : Nat :=
  if s.isBackward then s.focusOffset else s.anchorOffset

def SelectionState.getEndKey (s : SelectionState) : String :=
  if s.isBackward then s.anchorKey else s.focusKey

def SelectionState.getEndOffset (s : SelectionState) : Nat :=
  if s.isBackward then s.anchorOffset else s.focusOffset

/-- `SelectionState.hasEdgeWithin(blockKey, start, end)` translated from the
source: a same-block branch over the reduced start/end offsets, an
early-out for foreign blocks, then a check of whichever edge offset belongs
to the queried block. -/
def SelectionState.hasEdgeWithin (s : SelectionState) (blockKey : String)
    (start finish : Nat) : Bool :=
  let anchorKey := s.anchorKey
  let focusKey := s.focusKey
  if anchorKey = focusKey && anchorKey = blockKey then
    let selectionStart := s.getStartOffset
    let selectionEnd := s.getEndOffset
    (start ≤ selectionStart && selectionStart ≤ finish) ||
      (start ≤ selectionEnd && selectionEnd ≤ finish)
  else if blockKey ≠ anchorKey && blockKey ≠ focusKey then
    false
  else
    let offsetToCheck :=
      if blockKey = anchorKey then s.anchorOffset else s.focusOffset
    start ≤ offsetToCheck && finish ≥ offsetToCheck

/-- ContentState (`src/model/immutable/ContentState.js`): block map plus the
selection markers. The entity map is outside every claim and omitted. -/
structure ContentState where
  blockMap : List (String × ContentBlock)
  selectionBefore : SelectionState
  selectionAfter : SelectionState
deriving DecidableEq

/-- `ContentState.getKeyBefore`: the source computes `lastIndexOf(key)` over
the key array and then reads `keys[index + 1]`. -/
def ContentState.getKeyBefore (cs : ContentState) (k : String) :
    Option String :=
  let keys := cs.blockMap.map Prod.fst
  let index := jsLastIndexOf keys k
  keys[(index + 1).toNat]?

/-- `ContentState.getKeyAfter`: `indexOf(key)` then `keys[index + 1]`. -/
def ContentState.getKeyAfter (cs : ContentState) (k : String) :
    Option String :=
  let keys := cs.blockMap.map Prod.fst
  let index := jsIndexOf keys k
  keys[(index + 1).toNat]?

/-- `insertIntoList` (`src/model/transaction/moveBlockInContentState.js`
bundle): append when the offset is the length, prepend when it is zero,
otherwise splice head/inserted/tail. -/
def insertIntoList {α : Type} (targetList toInsert : List α) (offset : Nat) :
    List α :=
  if offset = targetList.length then targetList ++ toInsert
  else if offset = 0 then toInsert ++ targetList
  else targetList.take offset ++ toInsert ++ targetList.drop offset

/-- `insertTextIntoContentState` (`src/model/encoding/RawDraftContentBlock.js`
bundle). The invariant on a non-collapsed selection and the TypeError on a
missing target block are modelled as `Except.error`. -/
def insertTextIntoContentState (contentState : ContentState)
    (selectionState : SelectionState) (text : List Char)
    (characterMetadata : CharacterMetadata) : Except String ContentState :=
  if !selectionState.isCollapsed then
    .error "Invariant: insertText should only be called with a collapsed range"
  else
    let len := text.length
    if len = 0 then .ok contentState
    else
      let blockMap := contentState.blockMap
      let key := selectionState.getStartKey
      let offset := selectionState.getStartOffset
      match jsMapGet blockMap key with
      | none => .error "TypeError: cannot read getText of undefined"
      | some block =>
        let blockText := block.text
        let newBlock : ContentBlock :=
          { block with
            text := blockText.take offset ++ text ++
              ((blockText.drop offset).take (block.getLength - offset)),
            characterList :=
              insertIntoList block.characterList
                (List.replicate len characterMetadata) offset }
        let newOffset := offset + len
        .ok { contentState with
              blockMap := jsMapSet blockMap key newBlock,
              selectionAfter :=
                { selectionState with
                  anchorOffset := newOffset, focusOffset := newOffset } }

/-- Result of `removeFromList`: the `startOffset === 0` branch assigns
`targetList = targetList.shift()`, so the loop can terminate holding a single
removed element (or `undefined`) instead of an array. -/
inductive JSCharList where
  | arr (l : List CharacterMetadata)
  | single (c : Option CharacterMetadata)
deriving DecidableEq

/-- `removeFromList` (`src/model/transaction/removeRangeFromContentState.js`):
the source calls `targetList.shift()` / `targetList.count()` / `.pop()` /
`.toList()` on a plain `$ReadOnlyArray` (`$ReadOnlyArray` is a Flow-only
annotation; at runtime it is the block's own characterList array, handed
over by reference by `getCharacterList()`). `shift` removes the first
element of that array IN PLACE and returns the removed element (so a second
loop iteration calls `.shift` on a non-array and throws), and
`count`/`toList` do not exist on arrays (so every call with a non-zero
`startOffset` throws when evaluating `endOffset === targetList.count()`,
before any mutation). The result pairs the JS return value with the
caller's array as it stands after the call, capturing the in-place shift;
on the thrown paths the model discards the content, so the pre-throw
mutation of the input is not observable in the error result. -/
def removeFromList (targetList : List CharacterMetadata)
    (startOffset endOffset : Nat) :
    Except String (JSCharList × List CharacterMetadata) :=
  if startOffset = 0 then
    if startOffset < endOffset then
      if startOffset + 1 < endOffset then
        .error "TypeError: targetList.shift is not a function"
      else .ok (.single targetList.head?, targetList.drop 1)
    else .ok (.arr targetList, targetList)
  else .error "TypeError: targetList.count is not a function"

/-- Keys pushed into `blockMapUpdatedEntries` by the loop in
`removeRangeFromContentState`: the `startKey` entry only advances the loop
state (and is not pushed), interior keys not in `parentAncestors` are pushed,
and the `endKey` entry is pushed before the state advances past it. The model
covers flat (non-tree) blocks, for which `parentAncestors` is empty. -/
def removeRangePushedKeys (startKey endKey : String) :
    List (String × ContentBlock) → Nat → List String
  | [], _ => []
  | (k, _) :: rest, loopState =>
    if loopState = 0 ∧ k = startKey then
      removeRangePushedKeys startKey endKey rest 1
    else if loopState = 1 ∧ k = endKey then
      k :: removeRangePushedKeys startKey endKey rest 2
    else if loopState = 1 then
      k :: removeRangePushedKeys startKey endKey rest 1
    else
      removeRangePushedKeys startKey endKey rest loopState

/-- `removeRangeFromContentState` for flat blocks
(`isExperimentalTreeBlock` is false, so the tree-ancestor retention and the
`updateBlockMapLinks` pass are skipped). After the loop the source maps each
pushed entry `[k, _]` to the bare value `k === startKey ? modifiedStart :
null` (no pushed key ever equals `startKey`), then filters the concatenation
with a destructuring callback `([_, block]) => ...`; destructuring `null`
(or a block object) throws, so any non-empty pushed list raises a TypeError,
and an empty pushed list drops `modifiedStart`: the rebuilt map holds the
SAME startBlock object, whose characterList array `removeFromList` may have
shortened in place (the map rebinding below applies that mutation at
`startKey`; each block object occurs under exactly one key in maps this
library builds). -/
def removeRangeFromContentState (contentState : ContentState)
    (selectionState : SelectionState) : Except String ContentState :=
  if selectionState.isCollapsed then .ok contentState
  else
    let blockMap := contentState.blockMap
    let startKey := selectionState.getStartKey
    let startOffset := selectionState.getStartOffset
    let endKey := selectionState.getEndKey
    let endOffset := selectionState.getEndOffset
    match jsMapGet blockMap startKey, jsMapGet blockMap endKey with
    | some startBlock, some endBlock =>
      (if startKey = endKey then
        removeFromList startBlock.characterList startOffset endOffset
      else
        .ok (.arr (startBlock.characterList.take startOffset ++
          endBlock.characterList.drop endOffset),
          startBlock.characterList)).bind
      (fun charListAndMutation =>
        -- modifiedStart (text := startBlock prefix ++ endBlock suffix) is
        -- computed by the source here but never reaches the result map;
        -- startBlock itself stays in the map, with its characterList array
        -- as removeFromList left it (second component).
        let mutatedStartBlock : ContentBlock :=
          { startBlock with characterList := charListAndMutation.2 }
        let pushed := removeRangePushedKeys startKey endKey blockMap 0
        if pushed.isEmpty then
          .ok { contentState with
                blockMap := jsMapSet blockMap startKey mutatedStartBlock,
                selectionBefore := selectionState,
                selectionAfter :=
                  { selectionState with
                    anchorKey := startKey, anchorOffset := startOffset,
                    focusKey := startKey, focusOffset := startOffset,
                    isBackward := false } }
        else .error "TypeError: null is not iterable")
    | _, _ => .error "TypeError: cannot read getCharacterList of undefined"

/-- Style-rewrite loop of `modifyInlineStyle`: apply or remove the tag on the
characters in `[sliceStart, sliceEnd)`; reading past the end of the array
yields `undefined`, whose `getStyle` throws. -/
def styleCharsAux (chars : List CharacterMetadata) (start : Nat)
    (inlineStyle : String) (addOrRemove : Bool) :
    Nat → Except String (List CharacterMetadata)
  | 0 => .ok chars
  | n + 1 =>
    match chars[start]? with
    | none => .error "TypeError: cannot read getStyle of undefined"
    | some c =>
      styleCharsAux
        (chars.set start
          (if addOrRemove then c.applyStyle inlineStyle
           else c.removeStyle inlineStyle))
        (start + 1) inlineStyle addOrRemove n

/-- Rewrite the style of the characters in `[start, stop)`. -/
def styleChars (chars : List CharacterMetadata) (start stop : Nat)
    (inlineStyle : String) (addOrRemove : Bool) :
    Except String (List CharacterMetadata) :=
  styleCharsAux chars start inlineStyle addOrRemove (stop - start)

/-- Block operation closure of `modifyInlineStyle`
(`src/model/transaction/insertFragmentIntoContentState.js` bundle). The
closure declares parameters `(block, blockKey)`, but its caller
`modifyBlockForContentState` invokes `operation(block)` with one argument,
so `blockKey` is always `undefined` (modelled as `none`): in the
cross-block case the comparisons with `startKey`/`endKey` are false and
every processed block is rewritten over `[0, getLength)`. -/
def modifyInlineStyleOp (startKey endKey : String)
    (startOffset endOffset : Nat) (inlineStyle : String)
    (addOrRemove : Bool) (block : ContentBlock) (blockKey : Option String) :
    Except String ContentBlock :=
  let sliceStart :=
    if startKey = endKey then startOffset
    else if blockKey = some startKey then startOffset else 0
  let sliceEnd :=
    if startKey = endKey then endOffset
    else if blockKey = some endKey then endOffset else block.getLength
  (styleChars block.characterList sliceStart sliceEnd inlineStyle
    addOrRemove).map (fun characterList => { block with characterList })

/-- Loop of `modifyBlockForContentState` (`src/unnamed/part_002`): the
`startKey` entry only advances the loop state and is NOT processed; entries
after it are processed up to and including `endKey`. -/
def modifyBlockEntriesLoop (startKey endKey : String)
    (op : ContentBlock → Except String ContentBlock) :
    List (String × ContentBlock) → Nat →
    Except String (List (String × ContentBlock))
  | [], _ => .ok []
  | (k, block) :: rest, loopState =>
    if loopState = 0 ∧ k = startKey then
      modifyBlockEntriesLoop startKey endKey op rest 1
    else if loopState = 1 ∧ k = endKey then do
      let b ← op block
      let bs ← modifyBlockEntriesLoop startKey endKey op rest 2
      pure ((k, b) :: bs)
    else if loopState = 1 then do
      let b ← op block
      let bs ← modifyBlockEntriesLoop startKey endKey op rest 1
      pure ((k, b) :: bs)
    else
      modifyBlockEntriesLoop startKey endKey op rest loopState

/-- `modifyBlockForContentState` (`src/unnamed/part_002`): rebuild the block
map as `new Map([...blockMap.entries(), ...blockMapUpdatedEntries])` and set
both selection markers to the input selection. -/
def modifyBlockForContentState (contentState : ContentState)
    (selectionState : SelectionState)
    (op : ContentBlock → Except String ContentBlock) :
    Except String ContentState := do
  let startKey := selectionState.getStartKey
  let endKey := selectionState.getEndKey
  let blockMap := contentState.blockMap
  let blockMapUpdatedEntries ←
    modifyBlockEntriesLoop startKey endKey op blockMap 0
  .ok { contentState with
        blockMap := jsMapOfList (blockMap ++ blockMapUpdatedEntries),
        selectionBefore := selectionState,
        selectionAfter := selectionState }

/-- `modifyInlineStyle`: plug the style-rewrite closure (with its missing
`blockKey` argument) into `modifyBlockForContentState`. -/
def modifyInlineStyle (contentState : ContentState)
    (selectionState : SelectionState) (inlineStyle : String)
    (addOrRemove : Bool) : Except String ContentState :=
  let startKey := selectionState.getStartKey
  let startOffset := selectionState.getStartOffset
  let endKey := selectionState.getEndKey
  let endOffset := selectionState.getEndOffset
  modifyBlockForContentState contentState selectionState
    (fun block =>
      modifyInlineStyleOp startKey endKey startOffset endOffset inlineStyle
        addOrRemove block none)

/-- `ContentStateInlineStyle.remove`. -/
def ContentStateInlineStyle.remove (contentState : ContentState)
    (selectionState : SelectionState) (inlineStyle : String) :
    Except String ContentState :=
  modifyInlineStyle contentState selectionState inlineStyle false

/-- EditorState (`src/unnamed/part_004`): the `_state` fields that the
history and selection claims concern. Derived caches (`treeMap`,
`directionMap`) and the decorator are outside every claim and omitted;
without a decorator change, `EditorState.set` is `Object.assign` of the
supplied fields over the previous state, which the record updates below
perform directly. -/
structure EditorState where
  allowUndo : Bool
  currentContent : ContentState
  undoStack : List ContentState
  redoStack : List ContentState
  selection : SelectionState
  forceSelection : Bool
  inlineStyleOverride : Option (List String)
  lastChangeType : Option String
  nativelyRenderedContent : Option ContentState
deriving DecidableEq

/-- `mustBecomeBoundary`: the change type differs from the last one, or is
not one of the three typing types. -/
def mustBecomeBoundary (editorState : EditorState) (changeType : String) :
    Bool :=
  editorState.lastChangeType ≠ some changeType ||
    (changeType ≠ "insert-characters" && changeType ≠ "backspace-character" &&
      changeType ≠ "delete-character")

/-- `EditorState.push` (`src/unnamed/part_004`): no-op on the identical
content reference; without undo just swap the content; otherwise append the
prior content to the undo stack on a boundary (selection moved away from the
current selectionAfter, or `mustBecomeBoundary`), preserve the previous
selectionBefore on a coalescing typing run, clear the redo stack, and clear
the inline-style override except for the three override-preserving change
types. -/
def EditorState.push (editorState : EditorState)
    (contentState : ContentState) (changeType : String)
    (forceSelection : Bool) : EditorState :=
  if editorState.currentContent = contentState then editorState
  else if !editorState.allowUndo then
    { editorState with
      currentContent := contentState,
      lastChangeType := some changeType,
      selection := contentState.selectionAfter,
      forceSelection := forceSelection,
      inlineStyleOverride := none }
  else
    let selection := editorState.selection
    let currentContent := editorState.currentContent
    let boundary :=
      selection ≠ currentContent.selectionAfter ||
        mustBecomeBoundary editorState changeType
    let undoStack :=
      if boundary then editorState.undoStack ++ [currentContent]
      else editorState.undoStack
    let newContent :=
      if boundary then { contentState with selectionBefore := selection }
      else if changeType = "insert-characters" ||
          changeType = "backspace-character" ||
          changeType = "delete-character" then
        { contentState with
          selectionBefore := currentContent.selectionBefore }
      else contentState
    let inlineStyleOverride :=
      if changeType = "adjust-depth" || changeType = "change-block-type" ||
          changeType = "split-block" then
        editorState.inlineStyleOverride
      else none
    { editorState with
      currentContent := newContent,
      undoStack := undoStack,
      redoStack := [],
      lastChangeType := some changeType,
      selection := contentState.selectionAfter,
      forceSelection := forceSelection,
      inlineStyleOverride := inlineStyleOverride }

/-- `EditorState.undo` (`src/unnamed/part_004`): no-op without undo or on an
empty stack; otherwise take `undoStack[0]` (the FRONT of the array, even
though `push` appends at the back), append the outgoing content to the redo
stack, and select the outgoing content selectionBefore. -/
def EditorState.undo (editorState : EditorState) : EditorState :=
  if !editorState.allowUndo then editorState
  else
    match editorState.undoStack with
    | [] => editorState
    | newCurrentContent :: rest =>
      let currentContent := editorState.currentContent
      { editorState with
        currentContent := newCurrentContent,
        undoStack := rest,
        redoStack := editorState.redoStack ++ [currentContent],
        forceSelection := true,
        inlineStyleOverride := none,
        lastChangeType := some "undo",
        nativelyRenderedContent := none,
        selection := currentContent.selectionBefore }

/-- `EditorState.redo` (`src/unnamed/part_004`): symmetric to `undo`, using
the selectionAfter of the restored content. -/
def EditorState.redo (editorState : EditorState) : EditorState :=
  if !editorState.allowUndo then editorState
  else
    match editorState.redoStack with
    | [] => editorState
    | newCurrentContent :: rest =>
      let currentContent := editorState.currentContent
      { editorState with
        currentContent := newCurrentContent,
        undoStack := editorState.undoStack ++ [currentContent],
        redoStack := rest,
        forceSelection := true,
        inlineStyleOverride := none,
        lastChangeType := some "redo",
        nativelyRenderedContent := none,
        selection := newCurrentContent.selectionAfter }

/-- CharacterMetadata as a heap object: the value plus an allocation
identifier standing for the JS object reference, so that reference equality
is identifier equality. -/
structure CMObj where
  id : Nat
  value : CharacterMetadata
deriving DecidableEq

/-- The process-wide intern pool plus an allocation counter for fresh object
identities. -/
structure CMState where
  pool : List (String × CMObj)
  nextId : Nat
deriving DecidableEq

/-- `hashDraftInlineStyle`: join the style tags with a newline. -/
def hashDraftInlineStyle (style : List String) : String :=
  String.intercalate "\n" style

/-- `hashCharacterMetadataConfig`: style hash concatenated with the entity
key (empty for no entity). -/
def hashCharacterMetadataConfig (c : CharacterMetadata) : String :=
  hashDraftInlineStyle c.style ++ c.entity.getD ""

/-- The singleton `CharacterMetadata.EMPTY` object, allocated first. -/
def CMObj.EMPTY : CMObj := ⟨0, CharacterMetadata.EMPTY⟩

/-- The initial pool, seeded with the EMPTY instance under its hash. -/
def initialCMState : CMState :=
  ⟨[(hashCharacterMetadataConfig CharacterMetadata.EMPTY, CMObj.EMPTY)], 1⟩

/-- `CharacterMetadata.create`: look the merged configuration up in the pool
by its hash; on a hit return the pooled object unchanged, otherwise allocate
a fresh object and add it to the pool. -/
def cmCreate (s : CMState) (config : CharacterMetadata) : CMObj × CMState :=
  let poolKey := hashCharacterMetadataConfig config
  match jsMapGet s.pool poolKey with
  | some existing => (existing, s)
  | none =>
    let newCharacter : CMObj := ⟨s.nextId, config⟩
    (newCharacter, ⟨s.pool ++ [(poolKey, newCharacter)], s.nextId + 1⟩)

/-- `CharacterMetadata.set` = `inheritAndUpdate(record, put)`
(`Object.assign(Object.create(record), put)`): allocate a fresh object with
the updated value. It never consults or grows the pool. -/
def cmSet (s : CMState) (newValue : CharacterMetadata) : CMObj × CMState :=
  (⟨s.nextId, newValue⟩, { s with nextId := s.nextId + 1 })

/-- `CharacterMetadata.applyStyle` on objects: copy the style set, add the
tag, and go through `CharacterMetadata.set` (NOT through `create`). -/
def cmApplyStyle (s : CMState) (record : CMObj) (tag : String) :
    CMObj × CMState :=
  cmSet s { record.value with style := jsSetAdd record.value.style tag }

/-- `CharacterMetadata.removeStyle` on objects. -/
def cmRemoveStyle (s : CMState) (record : CMObj) (tag : String) :
    CMObj × CMState :=
  cmSet s { record.value with style := jsSetDelete record.value.style tag }

/-- A well-formed allocation state: every pooled object was allocated below
the counter. -/
def CMState.WF (s : CMState) : Prop :=
  ∀ p ∈ s.pool, p.2.id < s.nextId

-- Decidable equality on `Except`, for evaluating the models at concrete
-- inputs.
deriving instance DecidableEq for Except

/-! Concrete fixtures used by the witnesses, counterexamples and bug
evaluations below. -/

/-- Block `a` with text Alpha and five empty metadata entries. -/
def blockAlpha : ContentBlock :=
  ⟨"a", "unstyled", "Alpha".toList, List.replicate 5 CharacterMetadata.EMPTY,
    0⟩

/-- Block `b` with text Bravo and five empty metadata entries. -/
def blockBravo : ContentBlock :=
  ⟨"b", "unstyled", "Bravo".toList, List.replicate 5 CharacterMetadata.EMPTY,
    0⟩

/-- A collapsed selection at offset 0 of block `a`. -/
def selHome : SelectionState := ⟨"a", 0, "a", 0, false, true⟩

/-- A single-block document holding block `a` (Alpha). -/
def csAlpha : ContentState := ⟨[("a", blockAlpha)], selHome, selHome⟩

/-- The selection spanning offsets 3 to 5 of block `a`. -/
def selRange35 : SelectionState := ⟨"a", 3, "a", 5, false, true⟩

/-- The selection spanning offsets 0 to 1 of block `a`. -/
def selRange01 : SelectionState := ⟨"a", 0, "a", 1, false, true⟩

/-- A collapsed selection at offset 5 of block `a`. -/
def selAt5 : SelectionState := ⟨"a", 5, "a", 5, false, true⟩

/-- A two-block document holding blocks `a` (Alpha) and `b` (Bravo). -/
def csAlphaBravo : ContentState :=
  ⟨[("a", blockAlpha), ("b", blockBravo)], selHome, selHome⟩

/-- Metadata carrying exactly the BOLD tag. -/
def boldChar : CharacterMetadata := ⟨["BOLD"], none⟩

/-- A one-block ContentState with the given text, both selection markers at
`selHome`. -/
def mkContent (t : String) : ContentState :=
  ⟨[("a", ⟨"a", "unstyled", t.toList,
      List.replicate t.length CharacterMetadata.EMPTY, 0⟩)],
    selHome, selHome⟩

/-- A fresh editor over `mkContent "zero"` with undo enabled. -/
def esInit : EditorState :=
  ⟨true, mkContent "zero", [], [], selHome, false, none, none, none⟩

/-- Two boundary pushes: the undo stack receives `mkContent "zero"` first and
`mkContent "one"` second (most recent at the back). -/
def esAfterTwoPushes : EditorState :=
  (esInit.push (mkContent "one") "change-block-type" true).push
    (mkContent "two") "change-block-type" true

/-- First of three consecutive typing pushes. -/
def esTyped1 : EditorState :=
  esInit.push (mkContent "o") "insert-characters" true

/-- Second typing push (coalesces). -/
def esTyped2 : EditorState :=
  esTyped1.push (mkContent "on") "insert-characters" true

/-- Third typing push (coalesces). -/
def esTyped3 : EditorState :=
  esTyped2.push (mkContent "one") "insert-characters" true

/-- A style-change push after the typing run (a new boundary). -/
def esStyled : EditorState :=
  esTyped3.push (mkContent "one+") "change-inline-style" true

/-- A collapsed selection at offset 1 of block `a` (the cursor has moved away
from the current content selectionAfter). -/
def selMoved : SelectionState := ⟨"a", 1, "a", 1, false, true⟩

/-- An editor whose last change type is insert-characters but whose selection
has moved away from the current content selectionAfter. -/
def esMovedSel : EditorState :=
  ⟨true, mkContent "zero", [], [], selMoved, false, none,
    some "insert-characters", none⟩

/-- First `applyStyle` on the EMPTY object over the initial pool. -/
def cmFirstApply : CMObj × CMState :=
  cmApplyStyle initialCMState CMObj.EMPTY "BOLD"

/-- Second, identical `applyStyle` over the resulting state. -/
def cmSecondApply : CMObj × CMState :=
  cmApplyStyle cmFirstApply.2 CMObj.EMPTY "BOLD"

/-- C3: claimed behaviour is that removing [3,5) from block `a` (Alpha)
yields text Alp with a 3-element character list and selectionAfter collapsed
at (a, 3). The code instead throws: `removeFromList` evaluates
`targetList.count()` on a plain array (no such method) for any non-zero
start offset. Even on the non-throwing path (here, the range [0,1)) the
rewritten entries loop drops `modifiedStart`, so the result still holds the
original startBlock object — its text untouched at Alpha, but its
characterList array shortened in place to 4 entries by
`Array.prototype.shift`, leaving text and metadata inconsistent instead of
the claimed Alp with 3 entries. -/
theorem spec_c3_remove_range_eval :
    removeRangeFromContentState csAlpha selRange35 =
      .error "TypeError: targetList.count is not a function" ∧
    (removeRangeFromContentState csAlpha selRange01 =
      .ok { csAlpha with
            blockMap := [("a",
              { blockAlpha with
                characterList :=
                  List.replicate 4 CharacterMetadata.EMPTY })],
            selectionBefore := selRange01,
            selectionAfter := ⟨"a", 0, "a", 0, false, true⟩ }) ∧
    blockAlpha.text = "Alpha".toList := by
  exact ⟨by decide, by decide, by decide⟩

/-- C1: claimed behaviour is last-in-first-out undo. After two boundary
pushes the undo stack holds [zero, one] with `one` the most recently pushed
entry, so undo should restore `one`; the code reads `undoStack[0]` (while
`push` appends at the back) and restores the oldest entry `zero` instead. -/
theorem spec_c1_undo_eval :
    esAfterTwoPushes.undoStack = [mkContent "zero", mkContent "one"] ∧
    esAfterTwoPushes.undo.currentContent = mkContent "zero" ∧
    mkContent "zero" ≠ mkContent "one" ∧
    esAfterTwoPushes.undo.undoStack = [mkContent "one"] ∧
    esAfterTwoPushes.undo.redoStack = [mkContent "two"] := by
  exact ⟨by decide, by decide, by decide, by decide, by decide⟩

/-- C2 counterexample: the claim says a boundary occurs exactly when the
change type differs from the preceding one or is not a typing type. Here the
change type equals the preceding insert-characters, yet the push still adds
an undo entry, because the selection has moved away from the current content
selectionAfter (a boundary condition the claim omits). -/
theorem spec_c2_counterexample :
    esMovedSel.lastChangeType = some "insert-characters" ∧
    (esMovedSel.push (mkContent "one") "insert-characters" true).undoStack =
      esMovedSel.undoStack ++ [esMovedSel.currentContent] ∧
    esMovedSel.undoStack ++ [esMovedSel.currentContent] ≠
      esMovedSel.undoStack := by
  exact ⟨by decide, by decide, by decide⟩

/-- C6 counterexample: two identical `applyStyle` calls on the EMPTY object
produce semantically equal values with distinct object identities, and the
result is not registered in the pool (a later `create` with the same
configuration cannot find it), so semantically equal CharacterMetadata
values are not always shared by reference. -/
theorem spec_c6_counterexample :
    cmFirstApply.1.value = cmSecondApply.1.value ∧
    cmFirstApply.1.id ≠ cmSecondApply.1.id ∧
    jsMapGet cmSecondApply.2.pool
      (hashCharacterMetadataConfig cmFirstApply.1.value) = none := by
  exact ⟨by decide, by decide, by decide⟩

/-- C7: `hasEdgeWithin(blockKey, start, end)` returns true exactly when the
anchor offset (when the block is the anchor block) or the focus offset (when
it is the focus block) lies within [start, end], and false for every other
block. -/
theorem spec_c7_has_edge_within (sel : SelectionState) (blockKey : String)
    (start finish : Nat) (_h : start ≤ finish) :
    sel.hasEdgeWithin blockKey start finish = true ↔
      ((blockKey = sel.anchorKey ∧ start ≤ sel.anchorOffset ∧
          sel.anchorOffset ≤ finish) ∨
        (blockKey = sel.focusKey ∧ start ≤ sel.focusOffset ∧
          sel.focusOffset ≤ finish)) := by
  unfold SelectionState.hasEdgeWithin SelectionState.getStartOffset
    SelectionState.getEndOffset
  by_cases haf : sel.anchorKey = sel.focusKey <;>
    by_cases hab : blockKey = sel.anchorKey <;>
      by_cases hfb : blockKey = sel.focusKey <;>
        cases hib : sel.isBackward <;>
          simp_all
  all_goals first
    | omega
    | (intro h2
       exact absurd h2.symm hfb)

/-- C7 witness: the iff evaluated for the focus block of a cross-block
selection with the focus offset inside the window. -/
theorem spec_c7_witness :
    SelectionState.hasEdgeWithin ⟨"a", 2, "b", 7, false, true⟩ "b" 5 9 =
        true ↔
      (("b" = "a" ∧ 5 ≤ 2 ∧ 2 ≤ 9) ∨ ("b" = "b" ∧ 5 ≤ 7 ∧ 7 ≤ 9)) :=
  spec_c7_has_edge_within ⟨"a", 2, "b", 7, false, true⟩ "b" 5 9 (by decide)

/-- C8: the soft/no-op conditions return the input unchanged: removeRange on
a collapsed selection, insertText with empty text (under the collapsed
precondition that the preceding invariant enforces), push with the identical
current content, and undo/redo on an empty stack. -/
theorem spec_c8_soft_noops :
    (∀ cs sel, sel.isCollapsed = true →
      removeRangeFromContentState cs sel = .ok cs) ∧
    (∀ cs sel m, sel.isCollapsed = true →
      insertTextIntoContentState cs sel [] m = .ok cs) ∧
    (∀ es ctype fs, EditorState.push es es.currentContent ctype fs = es) ∧
    (∀ es, es.undoStack = [] → EditorState.undo es = es) ∧
    (∀ es, es.redoStack = [] → EditorState.redo es = es) := by
  refine ⟨?_, ?_, ?_, ?_, ?_⟩
  · intro cs sel h
    simp [removeRangeFromContentState, h]
  · intro cs sel m h
    simp [insertTextIntoContentState, h]
  · intro es ctype fs
    simp [EditorState.push]
  · intro es h
    unfold EditorState.undo
    rw [h]
    cases es.allowUndo <;> simp
  · intro es h
    unfold EditorState.redo
    rw [h]
    cases es.allowUndo <;> simp

/-- C8 witness: the four no-op conditions evaluated at concrete inputs. -/
theorem spec_c8_witness :
    removeRangeFromContentState csAlpha selHome = .ok csAlpha ∧
    insertTextIntoContentState csAlpha selHome [] boldChar = .ok csAlpha ∧
    EditorState.push esInit esInit.currentContent "insert-characters" true =
      esInit ∧
    EditorState.undo esInit = esInit ∧
    EditorState.redo esInit = esInit :=
  ⟨spec_c8_soft_noops.1 csAlpha selHome (by decide),
   spec_c8_soft_noops.2.1 csAlpha selHome boldChar (by decide),
   spec_c8_soft_noops.2.2.1 esInit "insert-characters" true,
   spec_c8_soft_noops.2.2.2.1 esInit (by decide),
   spec_c8_soft_noops.2.2.2.2 esInit (by decide)⟩

/-- Helper: all three branches of `insertIntoList` are the splice
`take ++ inserted ++ drop`. -/
theorem insertIntoList_eq_splice {α : Type} (l ins : List α) (o : Nat) :
    insertIntoList l ins o = l.take o ++ ins ++ l.drop o := by
  unfold insertIntoList
  by_cases h1 : o = l.length
  · subst h1
    simp
  · by_cases h2 : o = 0
    · subst h2
      simp [h1]
    · simp [h1, h2]

/-- Helper: `slice(offset, length)` of the dropped tail is the dropped
tail. -/
theorem drop_take_sub_length {α : Type} (l : List α) (o : Nat) :
    (l.drop o).take (l.length - o) = l.drop o := by
  rw [← List.length_drop]
  exact List.take_length _

/-- C5: insertText on a collapsed selection splices the text and a matching
metadata run into the target block at the collapsed offset and collapses
selectionAfter at offset + length; inserting Bet at offset 5 of Alpha gives
AlphaBet with selectionAfter collapsed at 8; a non-collapsed selection fails
the invariant. -/
theorem spec_c5_insert_text :
    (∀ cs sel t m b, sel.isCollapsed = true →
      jsMapGet cs.blockMap sel.getStartKey = some b → 0 < t.length →
      insertTextIntoContentState cs sel t m =
        .ok { cs with
              blockMap := jsMapSet cs.blockMap sel.getStartKey
                { b with
                  text := b.text.take sel.getStartOffset ++ t ++
                    b.text.drop sel.getStartOffset,
                  characterList :=
                    b.characterList.take sel.getStartOffset ++
                      List.replicate t.length m ++
                      b.characterList.drop sel.getStartOffset },
              selectionAfter :=
                { sel with
                  anchorOffset := sel.getStartOffset + t.length,
                  focusOffset := sel.getStartOffset + t.length } } ∧
      ({ sel with
         anchorOffset := sel.getStartOffset + t.length,
         focusOffset := sel.getStartOffset + t.length }
          : SelectionState).isCollapsed = true) ∧
    insertTextIntoContentState csAlpha selAt5 "Bet".toList
        CharacterMetadata.EMPTY =
      .ok { csAlpha with
            blockMap := [("a",
              { blockAlpha with
                text := "AlphaBet".toList,
                characterList :=
                  List.replicate 8 CharacterMetadata.EMPTY })],
            selectionAfter := ⟨"a", 8, "a", 8, false, true⟩ } ∧
    (∀ cs sel t m, sel.isCollapsed = false →
      insertTextIntoContentState cs sel t m =
        .error
          "Invariant: insertText should only be called with a collapsed range")
    := by
  refine ⟨?_, by decide, ?_⟩
  · intro cs sel t m b hc hget ht
    have hlen : t.length ≠ 0 := Nat.pos_iff_ne_zero.mp ht
    constructor
    · unfold insertTextIntoContentState
      rw [hc]
      simp [hget, hlen, insertIntoList_eq_splice, ContentBlock.getLength,
        drop_take_sub_length]
    · unfold SelectionState.isCollapsed at hc ⊢
      simp_all
  · intro cs sel t m hc
    unfold insertTextIntoContentState
    rw [hc]
    rfl

/-- C5 witness: the general splice statement and the invariant failure
evaluated at concrete inputs. -/
theorem spec_c5_witness :
    (insertTextIntoContentState csAlpha selAt5 "Bet".toList boldChar =
      .ok { csAlpha with
            blockMap := jsMapSet csAlpha.blockMap selAt5.getStartKey
              { blockAlpha with
                text := blockAlpha.text.take selAt5.getStartOffset ++
                  "Bet".toList ++
                  blockAlpha.text.drop selAt5.getStartOffset,
                characterList :=
                  blockAlpha.characterList.take selAt5.getStartOffset ++
                    List.replicate "Bet".toList.length boldChar ++
                    blockAlpha.characterList.drop selAt5.getStartOffset },
            selectionAfter :=
              { selAt5 with
                anchorOffset := selAt5.getStartOffset + "Bet".toList.length,
                focusOffset :=
                  selAt5.getStartOffset + "Bet".toList.length } } ∧
      ({ selAt5 with
         anchorOffset := selAt5.getStartOffset + "Bet".toList.length,
         focusOffset := selAt5.getStartOffset + "Bet".toList.length }
          : SelectionState).isCollapsed = true) ∧
    insertTextIntoContentState csAlpha selRange35 "Q".toList boldChar =
      .error
        "Invariant: insertText should only be called with a collapsed range"
    :=
  ⟨spec_c5_insert_text.1 csAlpha selAt5 "Bet".toList boldChar blockAlpha
      (by decide) (by decide) (by decide),
   spec_c5_insert_text.2.2 csAlpha selRange35 "Q".toList boldChar
      (by decide)⟩

/-- Helper: with undo enabled and genuinely new content, `push` appends the
prior current content to the undo stack exactly under the full boundary
condition (selection moved, change type differs, or non-typing type). -/
theorem push_undoStack_characterization (es : EditorState)
    (ct : ContentState) (ctype : String) (fs : Bool)
    (ha : es.allowUndo = true) (hne : ¬es.currentContent = ct) :
    (es.push ct ctype fs).undoStack =
      (if es.selection ≠ es.currentContent.selectionAfter ∨
          es.lastChangeType ≠ some ctype ∨
          (ctype ≠ "insert-characters" ∧ ctype ≠ "backspace-character" ∧
            ctype ≠ "delete-character")
        then es.undoStack ++ [es.currentContent] else es.undoStack) := by
  unfold EditorState.push mustBecomeBoundary
  rw [if_neg hne, ha]
  by_cases h1 : es.selection = es.currentContent.selectionAfter <;>
    by_cases h2 : es.lastChangeType = some ctype <;>
      by_cases h3 : ctype = "insert-characters" <;>
        by_cases h4 : ctype = "backspace-character" <;>
          by_cases h5 : ctype = "delete-character" <;>
            simp [h1, h2, h3, h4, h5]

/-- C2 (amended): three consecutive insert-characters pushes coalesce into a
single undo entry and a change-inline-style push then adds a second,
boundary entry; but the next undo restores the FRONT (oldest) undo entry
rather than only reverting the style change, and in general a new undo entry
is pushed exactly when the selection differs from the current content
selectionAfter, or the change type differs from the immediately preceding
one, or the change type is not one of the three typing types. -/
theorem spec_c2_amended :
    esTyped1.undoStack = [mkContent "zero"] ∧
    esTyped3.undoStack = [mkContent "zero"] ∧
    esStyled.undoStack = [mkContent "zero", mkContent "one"] ∧
    esStyled.undo.currentContent = mkContent "zero" ∧
    (∀ (es : EditorState) (ct : ContentState) (ctype : String) (fs : Bool),
      es.allowUndo = true → ¬es.currentContent = ct →
      ((es.push ct ctype fs).undoStack =
          es.undoStack ++ [es.currentContent] ↔
        (es.selection ≠ es.currentContent.selectionAfter ∨
          es.lastChangeType ≠ some ctype ∨
          (ctype ≠ "insert-characters" ∧ ctype ≠ "backspace-character" ∧
            ctype ≠ "delete-character"))) ∧
      (¬(es.selection ≠ es.currentContent.selectionAfter ∨
          es.lastChangeType ≠ some ctype ∨
          (ctype ≠ "insert-characters" ∧ ctype ≠ "backspace-character" ∧
            ctype ≠ "delete-character")) →
        (es.push ct ctype fs).undoStack = es.undoStack)) := by
  refine ⟨by decide, by decide, by decide, by decide, ?_⟩
  intro es ct ctype fs ha hne
  rw [push_undoStack_characterization es ct ctype fs ha hne]
  constructor
  · constructor
    · intro h
      by_contra hb
      rw [if_neg hb] at h
      have hlen := congrArg List.length h
      simp at hlen
    · intro hb
      rw [if_pos hb]
  · intro hb
    rw [if_neg hb]

/-- C2 witness: the general boundary characterization evaluated at the fresh
editor (no preceding change type, so the first push is a boundary). -/
theorem spec_c2_amended_witness :
    ((esInit.push (mkContent "one") "change-block-type" true).undoStack =
        esInit.undoStack ++ [esInit.currentContent] ↔
      (esInit.selection ≠ esInit.currentContent.selectionAfter ∨
        esInit.lastChangeType ≠ some "change-block-type" ∨
        ("change-block-type" ≠ "insert-characters" ∧
          "change-block-type" ≠ "backspace-character" ∧
          "change-block-type" ≠ "delete-character"))) ∧
    (¬(esInit.selection ≠ esInit.currentContent.selectionAfter ∨
        esInit.lastChangeType ≠ some "change-block-type" ∨
        ("change-block-type" ≠ "insert-characters" ∧
          "change-block-type" ≠ "backspace-character" ∧
          "change-block-type" ≠ "delete-character")) →
      (esInit.push (mkContent "one") "change-block-type" true).undoStack =
        esInit.undoStack) :=
  spec_c2_amended.2.2.2.2 esInit (mkContent "one") "change-block-type" true
    rfl (by decide)

/-- Helper: appending a binding for a key that is absent makes it the lookup
result. -/
theorem jsMapGet_append_single {β : Type} (l : List (String × β))
    (k : String) (v : β) (h : jsMapGet l k = none) :
    jsMapGet (l ++ [(k, v)]) k = some v := by
  induction l with
  | nil => simp [jsMapGet]
  | cons p rest ih =>
    rw [show p = (p.1, p.2) from rfl] at h ⊢
    by_cases hp : p.1 = k
    · simp [jsMapGet, hp] at h
    · simp only [List.cons_append, jsMapGet, hp, if_false] at h ⊢
      exact ih h

/-- C6 (amended): `create` called twice with the same configuration is a
pool hit returning the same object and state; `applyStyle`/`removeStyle`
instead return a freshly allocated instance — with the tag added/removed
from the style set and the entity kept — whose identity matches no pooled
object, so semantically equal CharacterMetadata values are not always
shared by reference. -/
theorem spec_c6_amended :
    (∀ (s : CMState) (config : CharacterMetadata),
      cmCreate (cmCreate s config).2 config =
        ((cmCreate s config).1, (cmCreate s config).2)) ∧
    (∀ (s : CMState) (record : CMObj) (tag : String), CMState.WF s →
      (cmApplyStyle s record tag).1.value.style =
        jsSetAdd record.value.style tag ∧
      (cmApplyStyle s record tag).1.value.entity = record.value.entity ∧
      ∀ p ∈ s.pool, p.2.id ≠ (cmApplyStyle s record tag).1.id) ∧
    (∀ (s : CMState) (record : CMObj) (tag : String), CMState.WF s →
      (cmRemoveStyle s record tag).1.value.style =
        jsSetDelete record.value.style tag ∧
      (cmRemoveStyle s record tag).1.value.entity = record.value.entity ∧
      ∀ p ∈ s.pool, p.2.id ≠ (cmRemoveStyle s record tag).1.id) := by
  refine ⟨?_, ?_, ?_⟩
  · intro s config
    unfold cmCreate
    cases h : jsMapGet s.pool (hashCharacterMetadataConfig config) with
    | some existing => simp [h]
    | none => simp [h, jsMapGet_append_single s.pool _ _ h]
  · intro s record tag hwf
    refine ⟨rfl, rfl, ?_⟩
    intro p hp
    exact Nat.ne_of_lt (hwf p hp)
  · intro s record tag hwf
    refine ⟨rfl, rfl, ?_⟩
    intro p hp
    exact Nat.ne_of_lt (hwf p hp)

/-- C6 witness: the pool-hit law and the fresh-allocation law evaluated over
the initial pool. -/
theorem spec_c6_amended_witness :
    cmCreate (cmCreate initialCMState boldChar).2 boldChar =
      ((cmCreate initialCMState boldChar).1,
        (cmCreate initialCMState boldChar).2) ∧
    ((cmApplyStyle initialCMState CMObj.EMPTY "BOLD").1.value.style =
        jsSetAdd CMObj.EMPTY.value.style "BOLD" ∧
      (cmApplyStyle initialCMState CMObj.EMPTY "BOLD").1.value.entity =
        CMObj.EMPTY.value.entity ∧
      ∀ p ∈ initialCMState.pool,
        p.2.id ≠ (cmApplyStyle initialCMState CMObj.EMPTY "BOLD").1.id) ∧
    ((cmRemoveStyle initialCMState CMObj.EMPTY "BOLD").1.value.style =
        jsSetDelete CMObj.EMPTY.value.style "BOLD" ∧
      (cmRemoveStyle initialCMState CMObj.EMPTY "BOLD").1.value.entity =
        CMObj.EMPTY.value.entity ∧
      ∀ p ∈ initialCMState.pool,
        p.2.id ≠ (cmRemoveStyle initialCMState CMObj.EMPTY "BOLD").1.id) :=
  ⟨spec_c6_amended.1 initialCMState boldChar,
   spec_c6_amended.2.1 initialCMState CMObj.EMPTY "BOLD"
     (by unfold CMState.WF; decide),
   spec_c6_amended.2.2 initialCMState CMObj.EMPTY "BOLD"
     (by unfold CMState.WF; decide)⟩

/-- Helper: a successful `firstIdx` points at an occurrence of the key. -/
theorem firstIdx_getElem {l : List String} {k : String} :
    ∀ {i : Nat}, firstIdx l k = some i → l[i]? = some k := by
  induction l with
  | nil =>
    intro i h
    simp [firstIdx] at h
  | cons x xs ih =>
    intro i h
    unfold firstIdx at h
    by_cases hx : x = k
    · rw [if_pos hx] at h
      cases h
      simp [hx]
    · rw [if_neg hx] at h
      cases hres : firstIdx xs k with
      | none => rw [hres] at h; cases h
      | some j =>
        rw [hres] at h
        cases h
        simpa using ih hres

/-- Helper: a present key has a first index. -/
theorem firstIdx_mem {l : List String} {k : String} (h : k ∈ l) :
    ∃ i, firstIdx l k = some i := by
  induction l with
  | nil => cases h
  | cons x xs ih =>
    unfold firstIdx
    by_cases hx : x = k
    · exact ⟨0, by simp [hx]⟩
    · have hk : k ∈ xs := by
        cases h with
        | head => exact absurd rfl hx
        | tail _ h2 => exact h2
      obtain ⟨j, hj⟩ := ih hk
      exact ⟨j + 1, by simp [hx, hj]⟩

/-- Helper: a successful indexed lookup is in bounds. -/
theorem getElem?_some_lt {l : List String} {i : Nat} {a : String}
    (h : l[i]? = some a) : i < l.length := by
  by_contra hlt
  rw [List.getElem?_eq_none (Nat.le_of_not_lt hlt)] at h
  cases h

/-- Helper: in a duplicate-free list the position of a value is unique. -/
theorem nodup_getElem?_unique {l : List String} {k : String} (hn : l.Nodup)
    {i j : Nat} (hi : l[i]? = some k) (hj : l[j]? = some k) : i = j := by
  have hil := getElem?_some_lt hi
  have hjl := getElem?_some_lt hj
  rw [List.getElem?_eq_getElem hil] at hi
  rw [List.getElem?_eq_getElem hjl] at hj
  rw [Option.some_inj] at hi hj
  have : l.get ⟨i, hil⟩ = l.get ⟨j, hjl⟩ := by
    simpa using hi.trans hj.symm
  simpa using (List.Nodup.get_inj_iff hn).mp this

/-- C9: with unique block keys, `getKeyBefore` computes the same value as
`getKeyAfter` — both return the key immediately following `k` in document
order (`none` when `k` is last) — and `getKeyBefore` never returns the key
preceding `k`. -/
theorem spec_c9_get_key_before_after :
    ∀ (cs : ContentState) (k : String),
      (cs.blockMap.map Prod.fst).Nodup →
      k ∈ cs.blockMap.map Prod.fst →
      cs.getKeyBefore k = cs.getKeyAfter k ∧
      (∀ i, firstIdx (cs.blockMap.map Prod.fst) k = some i →
        cs.getKeyAfter k = (cs.blockMap.map Prod.fst)[i + 1]?) ∧
      (∀ p j, (cs.blockMap.map Prod.fst)[j]? = some p →
        (cs.blockMap.map Prod.fst)[j + 1]? = some k →
        cs.getKeyBefore k ≠ some p) := by
  intro cs k hn hm
  obtain ⟨i, hi⟩ := firstIdx_mem hm
  have hik : (cs.blockMap.map Prod.fst)[i]? = some k := firstIdx_getElem hi
  have hafter : cs.getKeyAfter k = (cs.blockMap.map Prod.fst)[i + 1]? := by
    unfold ContentState.getKeyAfter jsIndexOf
    have ht : ((i : Int) + 1).toNat = i + 1 := by omega
    simp only [hi, ht]
  have hmr : k ∈ (cs.blockMap.map Prod.fst).reverse :=
    List.mem_reverse.mpr hm
  obtain ⟨n, hnr⟩ := firstIdx_mem hmr
  have hnk : (cs.blockMap.map Prod.fst).reverse[n]? = some k :=
    firstIdx_getElem hnr
  have hnlen : n < (cs.blockMap.map Prod.fst).length := by
    have := getElem?_some_lt hnk
    simpa using this
  have hrevk :
      (cs.blockMap.map Prod.fst)[(cs.blockMap.map Prod.fst).length - 1 -
        n]? = some k := by
    rw [← List.getElem?_reverse hnlen]
    exact hnk
  have heq : (cs.blockMap.map Prod.fst).length - 1 - n = i :=
    nodup_getElem?_unique hn hrevk hik
  have hbefore : cs.getKeyBefore k = (cs.blockMap.map Prod.fst)[i + 1]? := by
    unfold ContentState.getKeyBefore jsLastIndexOf
    have ht : ((i : Int) + 1).toNat = i + 1 := by omega
    simp only [hnr, heq, ht]
  refine ⟨hbefore.trans hafter.symm, ?_, ?_⟩
  · intro i2 hi2
    rw [hi] at hi2
    cases hi2
    exact hafter
  · intro p j hpj hjk hcontra
    have hji : j + 1 = i := nodup_getElem?_unique hn hjk hik
    rw [hbefore] at hcontra
    have : i + 1 = j := nodup_getElem?_unique hn hcontra hpj
    omega

/-- C9 witness: evaluated on a two-block document, both queries at the first
key return the second key, and `getKeyBefore` of the second key returns
`none` (not the preceding first key). -/
theorem spec_c9_witness :
    csAlphaBravo.getKeyBefore "a" = csAlphaBravo.getKeyAfter "a" ∧
    (∀ i, firstIdx (csAlphaBravo.blockMap.map Prod.fst) "a" = some i →
      csAlphaBravo.getKeyAfter "a" =
        (csAlphaBravo.blockMap.map Prod.fst)[i + 1]?) ∧
    (∀ p j, (csAlphaBravo.blockMap.map Prod.fst)[j]? = some p →
      (csAlphaBravo.blockMap.map Prod.fst)[j + 1]? = some "a" →
      csAlphaBravo.getKeyBefore "a" ≠ some p) :=
  spec_c9_get_key_before_after csAlphaBravo "a" (by decide) (by decide)
